import Mathlib

/-!
Verification of the mount-table reconciliation module (system/mount.py).

A table file is a list of bytes (here `List Char`); `pyReadlines` models
Python's `readlines`, `splitWords` models `str.split()` (split on runs of
whitespace, dropping empty words), `pyStrip` models `str.strip()`.

`setLoop` / `set_mount` embed the body of `set_mount` (the present/mounted
upsert); `unsetLoop` / `unset_mount` embed `unset_mount` (the absent/unmounted
removal); `set_mount_run` / `unset_mount_run` add the file read, the
conditional `write_fstab` call, and the trace of writes performed; `mainModel`
embeds the state dispatch of `main` (query of the OS mount list, fstab
auto-creation, the four states, the mkdir/mount/umount/rmdir actions modelled
by an environment of oracles, and the compensating removals on failure).
-/

namespace MountMod

abbrev Line := List Char

/-- The whitespace set of Python 2 `str.split()` and `str.strip()`. -/
def isPySpace (c : Char) : Bool :=
  c = ' ' || c = '\t' || c = '\n' || c = '\r' || c = '\x0B' || c = '\x0C'

/-- Accumulator-based splitting into maximal runs of non-whitespace. -/
def splitWordsAux : List Char → List Char → List (List Char)
  | [], acc => if acc = [] then [] else [acc.reverse]
  | c :: cs, acc =>
    if isPySpace c then
      if acc = [] then splitWordsAux cs [] else acc.reverse :: splitWordsAux cs []
    else
      splitWordsAux cs (c :: acc)

/-- Python `line.split()`. -/
def splitWords (l : List Char) : List (List Char) := splitWordsAux l []

/-- Python `line.strip()`. -/
def pyStrip (l : List Char) : List Char :=
  ((l.dropWhile isPySpace).reverse.dropWhile isPySpace).reverse

/-- Accumulator for `readlines`: cut after every newline character. -/
def readlinesAux : List Char → List Char → List (List Char)
  | [], acc => if acc = [] then [] else [acc.reverse]
  | c :: cs, acc =>
    if c = '\n' then (acc.reverse ++ ['\n']) :: readlinesAux cs []
    else readlinesAux cs (c :: acc)

/-- Python `open(path).readlines()` over the file content. -/
def pyReadlines (s : List Char) : List (List Char) := readlinesAux s []

/-- Join fields with single spaces (the body of the format string
`src name fstype opts dump passno`). -/
def joinFields : List (List Char) → List Char
  | [] => []
  | [w] => w
  | w :: ws => w ++ ' ' :: joinFields ws

/-- A parsed 6-field table entry, fields in the order the code assigns them:
`ld['src'], ld['name'], ld['fstype'], ld['opts'], ld['dump'], ld['passno']`. -/
structure MountEntry where
  src : List Char
  name : List Char
  fstype : List Char
  opts : List Char
  dump : List Char
  passno : List Char
deriving DecidableEq

/-- The line rendered by `new_line % ld`:
six fields joined by single spaces, newline-terminated. -/
def encodeEntry (e : MountEntry) : Line :=
  joinFields [e.src, e.name, e.fstype, e.opts, e.dump, e.passno] ++ ['\n']

/-- EntryCodec decode: blank lines, comment lines and lines without exactly
6 whitespace-separated fields fail softly to `none` (opaque passthrough);
otherwise the fields are assigned positionally. -/
def decodeLine (l : Line) : Option MountEntry :=
  if pyStrip l = [] then none
  else if (pyStrip l).head? = some '#' then none
  else
    match splitWords l with
    | [s, n, t, o, d, p] => some ⟨s, n, t, o, d, p⟩
    | _ => none

/-- The module arguments after defaults are merged (`args` in the code). -/
structure Args where
  name : List Char
  src : List Char
  fstype : List Char
  opts : List Char
  dump : List Char
  passno : List Char
deriving DecidableEq

/-- `new_line % args`: the canonical line written for the desired spec. -/
def canonLine (a : Args) : Line :=
  encodeEntry ⟨a.src, a.name, a.fstype, a.opts, a.dump, a.passno⟩

/-- A line that the loops of `set_mount`/`unset_mount` treat as a parsed
entry at the requested name: not blank, not a comment, exactly 6 fields,
and the second field equals `args['name']`. -/
def isTracked (a : Args) (l : Line) : Bool :=
  decide (¬ pyStrip l = [] ∧ ¬ (pyStrip l).head? = some '#' ∧
    (splitWords l).length = 6 ∧ (splitWords l).get? 1 = some a.name)

/-- A line that the loops classify as a parsed entry (any name). -/
def isEntryLine (l : Line) : Bool :=
  decide (¬ pyStrip l = [] ∧ ¬ (pyStrip l).head? = some '#' ∧
    (splitWords l).length = 6)

/-- An opaque line: blank, comment, or field count different from 6. -/
def isOpaque (l : Line) : Bool := !(isEntryLine l)

/-- The five compared fields of a matching line all equal the desired spec
(the loop `for t in ('src', 'fstype', 'opts', 'dump', 'passno')`). -/
def fieldsEqArgsB (a : Args) (l : Line) : Bool :=
  decide ((splitWords l).get? 0 = some a.src ∧
    (splitWords l).get? 2 = some a.fstype ∧
    (splitWords l).get? 3 = some a.opts ∧
    (splitWords l).get? 4 = some a.dump ∧
    (splitWords l).get? 5 = some a.passno)

/-- The line-scanning loop of `set_mount`: blank, comment and non-6-field
lines are appended unchanged; a 6-field line with a different name is
appended unchanged; a matching line marks `exists` and is re-rendered as the
canonical desired line when the running `changed` flag is set (the code
mutates the differing fields of `ld` and renders `new_line % ld`, which after
the mutation equals `new_line % args`). Arguments: lines, exists, changed. -/
def setLoop (a : Args) : List Line → Bool → Bool → List Line × Bool × Bool
  | [], ex, ch => ([], ex, ch)
  | l :: ls, ex, ch =>
    if pyStrip l = [] then
      let r := setLoop a ls ex ch
      (l :: r.1, r.2)
    else if (pyStrip l).head? = some '#' then
      let r := setLoop a ls ex ch
      (l :: r.1, r.2)
    else if ¬ (splitWords l).length = 6 then
      let r := setLoop a ls ex ch
      (l :: r.1, r.2)
    else if ¬ (splitWords l).get? 1 = some a.name then
      let r := setLoop a ls ex ch
      (l :: r.1, r.2)
    else
      if ch || !(fieldsEqArgsB a l) then
        let r := setLoop a ls true (ch || !(fieldsEqArgsB a l))
        (canonLine a :: r.1, r.2)
      else
        let r := setLoop a ls true ch
        (l :: r.1, r.2)

/-- `set_mount` on the loaded line list: run the loop with
`exists = changed = False`; if no line matched, append the canonical line and
mark changed. Returns the `to_write` list and the `changed` verdict. -/
def set_mount (a : Args) (lines : List Line) : List Line × Bool :=
  let r := setLoop a lines false false
  if r.2.1 then (r.1, r.2.2) else (r.1 ++ [canonLine a], true)

/-- The line-scanning loop of `unset_mount`: opaque and non-matching lines
are appended unchanged; a matching line is dropped and marks changed. -/
def unsetLoop (a : Args) : List Line → Bool → List Line × Bool
  | [], ch => ([], ch)
  | l :: ls, ch =>
    if pyStrip l = [] then
      let r := unsetLoop a ls ch
      (l :: r.1, r.2)
    else if (pyStrip l).head? = some '#' then
      let r := unsetLoop a ls ch
      (l :: r.1, r.2)
    else if ¬ (splitWords l).length = 6 then
      let r := unsetLoop a ls ch
      (l :: r.1, r.2)
    else if ¬ (splitWords l).get? 1 = some a.name then
      let r := unsetLoop a ls ch
      (l :: r.1, r.2)
    else
      unsetLoop a ls true

/-- `unset_mount` on the loaded line list. -/
def unset_mount (a : Args) (lines : List Line) : List Line × Bool :=
  unsetLoop a lines false

/-- One reconciliation over the file: resulting byte content, the `changed`
verdict, and the list of file writes performed (`write_fstab` calls). -/
structure RecRun where
  content : List Char
  changed : Bool
  writes : List (List Char)
deriving DecidableEq

/-- `set_mount` including the read of the table file and the conditional
`write_fstab(to_write, fstab)` call. -/
def set_mount_run (a : Args) (c : List Char) : RecRun :=
  let r := set_mount a (pyReadlines c)
  if r.2 then ⟨r.1.flatten, true, [r.1.flatten]⟩ else ⟨c, false, []⟩

/-- `unset_mount` including the read of the table file and the conditional
`write_fstab` call. -/
def unset_mount_run (a : Args) (c : List Char) : RecRun :=
  let r := unset_mount a (pyReadlines c)
  if r.2 then ⟨r.1.flatten, true, [r.1.flatten]⟩ else ⟨c, false, []⟩

/-- The requested state. -/
inductive MState
  | present
  | absent
  | mounted
  | unmounted
deriving DecidableEq

/-- The OS-level oracles consumed by `main`: the mount list returned by
`mount -l` (list of mounted target paths), whether the mount point path
exists, whether `os.makedirs` would succeed, the exit codes of the mount and
umount commands, and whether `os.rmdir` would succeed. -/
structure Env where
  mountedFs : List (List Char)
  dirExists : Bool
  mkdirOk : Bool
  mountRc : Nat
  umountRc : Nat
  rmdirOk : Bool
deriving DecidableEq

/-- The exit of one invocation: `exit_json(changed=...)` or one of the
`fail_json` aborts. All `fail` constructors are fatal. -/
inductive Outcome
  | ok (changed : Bool)
  | failQuery
  | failUmount
  | failRmdir
  | failMkdir
  | failMount
deriving DecidableEq

/-- Result of one `main` invocation: outcome, the table file afterwards
(`none` when the file was never created), and which OS actions ran. -/
structure RunResult where
  outcome : Outcome
  file : Option (List Char)
  mountCalled : Bool
  umountCalled : Bool
deriving DecidableEq

/-- The tail of the `unmounted` state: remove the mount point directory if
the path exists; an `os.rmdir` failure is fatal with no table compensation. -/
def rmdirStep (env : Env) (content : List Char) (changed : Bool)
    (umountCalled : Bool) : RunResult :=
  if env.dirExists then
    if env.rmdirOk then ⟨.ok true, some content, false, umountCalled⟩
    else ⟨.failRmdir, some content, false, umountCalled⟩
  else ⟨.ok changed, some content, false, umountCalled⟩

/-- The tail of the `mounted` state: `if args['name'] not in mounted_fs or
changed:` run the mount command; a nonzero exit compensates the table edit
with `unset_mount` and is fatal. -/
def mountStep (a : Args) (env : Env) (content : List Char) (changed : Bool) :
    RunResult :=
  if a.name ∉ env.mountedFs ∨ changed = true then
    if env.mountRc ≠ 0 then
      ⟨.failMount, some (unset_mount_run a content).content, true, false⟩
    else ⟨.ok changed, some content, true, false⟩
  else ⟨.ok changed, some content, false, false⟩

/-- `main`: fail if the OS mount list is empty (before the fstab file is
created or read); auto-create the missing fstab as empty; then dispatch on
the requested state. In `mounted`, a failing `os.makedirs` compensates the
table edit with `unset_mount` and is fatal. -/
def mainModel (a : Args) (st : MState) (env : Env) (file : Option (List Char)) :
    RunResult :=
  if env.mountedFs = [] then ⟨.failQuery, file, false, false⟩
  else
    let content := file.getD []
    match st with
    | .present =>
      ⟨.ok (set_mount_run a content).changed,
        some (set_mount_run a content).content, false, false⟩
    | .absent =>
      ⟨.ok (unset_mount_run a content).changed,
        some (unset_mount_run a content).content, false, false⟩
    | .unmounted =>
      if a.name ∈ env.mountedFs then
        if env.umountRc ≠ 0 then
          ⟨.failUmount, some (unset_mount_run a content).content, false, true⟩
        else rmdirStep env (unset_mount_run a content).content true true
      else
        rmdirStep env (unset_mount_run a content).content
          (unset_mount_run a content).changed false
    | .mounted =>
      if !env.dirExists then
        if env.mkdirOk then mountStep a env (set_mount_run a content).content true
        else
          ⟨.failMkdir,
            some (unset_mount_run a (set_mount_run a content).content).content,
            false, false⟩
      else mountStep a env (set_mount_run a content).content
        (set_mount_run a content).changed

/-- A usable field value: nonempty and free of split whitespace. -/
def isWordP (w : List Char) : Prop := w ≠ [] ∧ ∀ c ∈ w, isPySpace c = false

/-- Well-formed spec fields: each of the six fields is a nonempty
whitespace-free word and the source does not begin with `#` (so the canonical
rendered line is itself parsed as an entry, not a comment). -/
def ArgsWf (a : Args) : Prop :=
  isWordP a.src ∧ isWordP a.name ∧ isWordP a.fstype ∧ isWordP a.opts ∧
    isWordP a.dump ∧ isWordP a.passno ∧ a.src.head? ≠ some '#'

/-- Well-formed entry fields, in the sense of the round-trip claim, plus the
comment exclusion on the first field. -/
def EntryWf (e : MountEntry) : Prop :=
  isWordP e.src ∧ isWordP e.name ∧ isWordP e.fstype ∧ isWordP e.opts ∧
    isWordP e.dump ∧ isWordP e.passno ∧ e.src.head? ≠ some '#'

/-- The fields of the round-trip claim as stated: nonempty and
whitespace-free, with no condition on a leading `#`. -/
def EntryFieldsOk (e : MountEntry) : Prop :=
  isWordP e.src ∧ isWordP e.name ∧ isWordP e.fstype ∧ isWordP e.opts ∧
    isWordP e.dump ∧ isWordP e.passno

/-- File content as produced by a text editor or a previous write: empty, or
terminated by a newline. -/
def NlContent (c : List Char) : Prop := c = [] ∨ c.getLast? = some '\n'

/-- A well-shaped stored line: nonempty, newline-terminated, no interior
newline. `readlines` output consists of such lines when the file is
newline-terminated. -/
def isNlLine (l : Line) : Prop :=
  l ≠ [] ∧ l.getLast? = some '\n' ∧ '\n' ∉ l.dropLast

instance (w : List Char) : Decidable (isWordP w) :=
  decidable_of_iff (w ≠ [] ∧ ∀ c ∈ w, isPySpace c = false) Iff.rfl

instance (a : Args) : Decidable (ArgsWf a) :=
  decidable_of_iff (isWordP a.src ∧ isWordP a.name ∧ isWordP a.fstype ∧
    isWordP a.opts ∧ isWordP a.dump ∧ isWordP a.passno ∧
    a.src.head? ≠ some '#') Iff.rfl

instance (e : MountEntry) : Decidable (EntryWf e) :=
  decidable_of_iff (isWordP e.src ∧ isWordP e.name ∧ isWordP e.fstype ∧
    isWordP e.opts ∧ isWordP e.dump ∧ isWordP e.passno ∧
    e.src.head? ≠ some '#') Iff.rfl

instance (e : MountEntry) : Decidable (EntryFieldsOk e) :=
  decidable_of_iff (isWordP e.src ∧ isWordP e.name ∧ isWordP e.fstype ∧
    isWordP e.opts ∧ isWordP e.dump ∧ isWordP e.passno) Iff.rfl

instance (c : List Char) : Decidable (NlContent c) :=
  decidable_of_iff (c = [] ∨ c.getLast? = some '\n') Iff.rfl

/-- Concrete spec used by witnesses: canonical line `a b c d e f`. -/
def argsEx : Args := ⟨['b'], ['a'], ['c'], ['d'], ['e'], ['f']⟩

/-- The canonical table line of `argsEx`. -/
def lineEx : List Char := ['a', ' ', 'b', ' ', 'c', ' ', 'd', ' ', 'e', ' ', 'f', '\n']

/-- A one-entry table already holding exactly the desired entry. -/
def contentEx : List Char := lineEx

/-- A table holding the desired entry twice. -/
def contentDup : List Char := lineEx ++ lineEx

/-- A well-formed entry whose encoding is `a b c d e f`. -/
def entryEx : MountEntry := ⟨['a'], ['b'], ['c'], ['d'], ['e'], ['f']⟩

/-- An entry with nonempty whitespace-free fields whose source field starts
with a hash. -/
def entryHash : MountEntry := ⟨['#', 'a'], ['b'], ['c'], ['d'], ['e'], ['f']⟩

/-- Environment: name mounted, directory missing, mkdir succeeds. -/
def envRemount : Env := ⟨[['b']], false, true, 0, 0, true⟩

/-- Environment: directory missing and mkdir fails. -/
def envMkdirFail : Env := ⟨[['b']], false, false, 0, 0, true⟩

/-- Environment: name not mounted, directory present, mount fails. -/
def envMountFail : Env := ⟨[['z']], true, true, 1, 0, true⟩

/-- Environment: empty OS mount list. -/
def envEmptyQ : Env := ⟨[], true, true, 0, 0, true⟩

/-- Environment: everything fine. -/
def envPlain : Env := ⟨[['b']], true, true, 0, 0, true⟩

/-! ### Lemmas about word splitting -/

theorem splitWordsAux_word (w rest acc : List Char)
    (hw : ∀ c ∈ w, isPySpace c = false) :
    splitWordsAux (w ++ rest) acc = splitWordsAux rest (w.reverse ++ acc) := by
  induction w generalizing acc with
  | nil => simp
  | cons c w ih =>
    have hc : isPySpace c = false := hw c (by simp)
    simp only [List.cons_append, splitWordsAux, hc, Bool.false_eq_true, if_false]
    show splitWordsAux (w ++ rest) (c :: acc) = _
    rw [ih _ (fun d hd => hw d (by simp [hd]))]
    simp

theorem splitWordsAux_space (c : Char) (rest acc : List Char)
    (hc : isPySpace c = true) (hacc : acc ≠ []) :
    splitWordsAux (c :: rest) acc = acc.reverse :: splitWordsAux rest [] := by
  simp [splitWordsAux, hc, hacc]

theorem splitWords_joinFields (ws : List (List Char)) (hne : ws ≠ [])
    (hw : ∀ w ∈ ws, w ≠ [] ∧ ∀ c ∈ w, isPySpace c = false) :
    splitWords (joinFields ws ++ ['\n']) = ws := by
  induction ws with
  | nil => cases hne rfl
  | cons w ws ih =>
    obtain ⟨hw1, hw2⟩ := hw w (by simp)
    cases ws with
    | nil =>
      show splitWordsAux (w ++ ['\n']) [] = [w]
      rw [splitWordsAux_word w ['\n'] [] hw2,
        splitWordsAux_space '\n' [] _ (by decide) (by simp [hw1])]
      simp [splitWordsAux]
    | cons w' ws' =>
      have hjoin : joinFields (w :: w' :: ws') ++ ['\n'] =
          w ++ (' ' :: (joinFields (w' :: ws') ++ ['\n'])) := by
        simp [joinFields]
      rw [splitWords, hjoin, splitWordsAux_word w _ [] hw2,
        splitWordsAux_space ' ' _ _ (by decide) (by simp [hw1])]
      simp only [List.append_nil, List.reverse_reverse]
      rw [← splitWords, ih (by simp) (fun x hx => hw x (by simp [hx]))]

/-! ### Lemmas about stripping -/

theorem dropWhile_append_singleton (p : Char → Bool) (xs : List Char) (c : Char)
    (hc : p c = false) :
    List.dropWhile p (xs ++ [c]) = List.dropWhile p xs ++ [c] := by
  induction xs with
  | nil => simp [List.dropWhile, hc]
  | cons x xs ih =>
    by_cases hx : p x
    · simp [List.dropWhile_cons, hx, ih]
    · simp [List.dropWhile_cons, hx]

theorem pyStrip_head (c : Char) (t : List Char) (hc : isPySpace c = false) :
    (pyStrip (c :: t)).head? = some c := by
  unfold pyStrip
  rw [List.dropWhile_cons]
  simp only [hc, Bool.false_eq_true, if_false]
  rw [List.reverse_cons, dropWhile_append_singleton _ _ _ hc]
  simp

/-! ### Lemmas about readlines -/

theorem readlinesAux_break (front rest : List Char) :
    ∀ acc, '\n' ∉ front →
      readlinesAux (front ++ '\n' :: rest) acc =
        ((acc.reverse ++ front) ++ ['\n']) :: readlinesAux rest [] := by
  induction front with
  | nil => intro acc _; simp [readlinesAux]
  | cons c front ih =>
    intro acc h
    have hc : ¬ c = '\n' := fun hh => h (by simp [hh])
    simp only [List.cons_append, readlinesAux, hc, if_false]
    show readlinesAux (front ++ '\n' :: rest) (c :: acc) = _
    rw [ih _ (fun hf => h (by simp [hf]))]
    simp

theorem pyReadlines_flatten (L : List Line) (h : ∀ l ∈ L, isNlLine l) :
    pyReadlines L.flatten = L := by
  induction L with
  | nil => rfl
  | cons l L ih =>
    obtain ⟨h1, h2, h3⟩ := h l (by simp)
    have hlast : l.getLast h1 = '\n' := by
      have := List.getLast?_eq_getLast l h1
      rw [this] at h2
      exact Option.some.inj h2
    have hl : l = l.dropLast ++ ['\n'] := by
      conv_lhs => rw [← List.dropLast_append_getLast h1, hlast]
    have hflat : (l :: L).flatten = l.dropLast ++ '\n' :: L.flatten := by
      rw [List.flatten_cons]
      conv_lhs => rw [hl]
      simp
    rw [pyReadlines, hflat, readlinesAux_break _ _ [] h3]
    simp only [List.reverse_nil, List.nil_append]
    rw [← pyReadlines, ih (fun x hx => h x (by simp [hx])), ← hl]

theorem readlinesAux_shape (s : List Char) :
    ∀ acc, '\n' ∉ acc → ∀ l ∈ readlinesAux s acc, l ≠ [] ∧ '\n' ∉ l.dropLast := by
  induction s with
  | nil =>
    intro acc hacc l hl
    by_cases h : acc = []
    · simp [readlinesAux, h] at hl
    · simp only [readlinesAux, h, if_false, List.mem_singleton] at hl
      subst hl
      refine ⟨by simp [h], fun hmem => hacc ?_⟩
      have h2 : '\n' ∈ acc.reverse := (List.dropLast_sublist acc.reverse).mem hmem
      simpa using h2
  | cons c cs ih =>
    intro acc hacc l hl
    by_cases hc : c = '\n'
    · subst hc
      simp only [readlinesAux, if_pos rfl] at hl
      rcases List.mem_cons.mp hl with hl2 | hl2
      · subst hl2
        refine ⟨by simp, ?_⟩
        rw [List.dropLast_concat]
        intro hmem
        exact hacc (by simpa using hmem)
      · exact ih [] (by simp) l hl2
    · simp only [readlinesAux, hc, if_false] at hl
      refine ih (c :: acc) ?_ l hl
      intro hmem
      rcases List.mem_cons.mp hmem with h | h
      · exact hc h.symm
      · exact hacc h

theorem readlinesAux_lastNl (s : List Char) :
    ∀ acc, s.getLast? = some '\n' → ∀ l ∈ readlinesAux s acc,
      l.getLast? = some '\n' := by
  induction s with
  | nil => intro acc h; simp at h
  | cons c cs ih =>
    intro acc hlast l hl
    by_cases hc : c = '\n'
    · subst hc
      simp only [readlinesAux, if_pos rfl] at hl
      rcases List.mem_cons.mp hl with hl2 | hl2
      · subst hl2; simp
      · cases cs with
        | nil => simp [readlinesAux] at hl2
        | cons d ds =>
          have h2 : (d :: ds).getLast? = some '\n' := by
            rwa [List.getLast?_cons_cons] at hlast
          exact ih [] h2 l hl2
    · simp only [readlinesAux, hc, if_false] at hl
      cases cs with
      | nil =>
        simp only [List.getLast?_singleton, Option.some.injEq] at hlast
        exact absurd hlast hc
      | cons d ds =>
        have h2 : (d :: ds).getLast? = some '\n' := by
          rwa [List.getLast?_cons_cons] at hlast
        exact ih (c :: acc) h2 l hl

theorem pyReadlines_nl (c : List Char) (h : NlContent c) :
    ∀ l ∈ pyReadlines c, isNlLine l := by
  intro l hl
  rcases h with h | h
  · subst h; simp [pyReadlines, readlinesAux] at hl
  · obtain ⟨h1, h2⟩ := readlinesAux_shape c [] (by simp) l hl
    exact ⟨h1, readlinesAux_lastNl c [] h l hl, h2⟩

/-! ### Lemmas about the canonical rendered line -/

theorem mem_joinFields (ws : List (List Char)) (c : Char) (h : c ∈ joinFields ws) :
    (∃ w ∈ ws, c ∈ w) ∨ c = ' ' := by
  induction ws with
  | nil => simp [joinFields] at h
  | cons w ws ih =>
    cases ws with
    | nil => exact Or.inl ⟨w, by simp, by simpa [joinFields] using h⟩
    | cons w' ws' =>
      rw [show joinFields (w :: w' :: ws') = w ++ ' ' :: joinFields (w' :: ws') from rfl]
        at h
      rcases List.mem_append.mp h with h | h
      · exact Or.inl ⟨w, by simp, h⟩
      · rcases List.mem_cons.mp h with h | h
        · exact Or.inr h
        · rcases ih h with ⟨w2, hw2, hc⟩ | h
          · exact Or.inl ⟨w2, by simp [hw2], hc⟩
          · exact Or.inr h

theorem canonLine_eq (a : Args) :
    canonLine a =
      joinFields [a.src, a.name, a.fstype, a.opts, a.dump, a.passno] ++ ['\n'] := rfl

theorem argsWf_fields (a : Args) (h : ArgsWf a) :
    ∀ w ∈ [a.src, a.name, a.fstype, a.opts, a.dump, a.passno],
      w ≠ [] ∧ ∀ c ∈ w, isPySpace c = false := by
  obtain ⟨h1, h2, h3, h4, h5, h6, _⟩ := h
  intro w hw
  simp only [List.mem_cons, List.mem_singleton] at hw
  rcases hw with rfl | rfl | rfl | rfl | rfl | rfl | hw
  · exact h1
  · exact h2
  · exact h3
  · exact h4
  · exact h5
  · exact h6
  · simp at hw

theorem canon_splitWords (a : Args) (h : ArgsWf a) :
    splitWords (canonLine a) = [a.src, a.name, a.fstype, a.opts, a.dump, a.passno] := by
  rw [canonLine_eq]
  exact splitWords_joinFields _ (by simp) (argsWf_fields a h)

theorem canon_strip_head (a : Args) (h : ArgsWf a) :
    (pyStrip (canonLine a)).head? = a.src.head? := by
  obtain ⟨⟨hs1, hs2⟩, _, _, _, _, _, _⟩ := h
  obtain ⟨c, t, hsrc⟩ : ∃ c t, a.src = c :: t := by
    cases hsrc : a.src with
    | nil => exact absurd hsrc hs1
    | cons c t => exact ⟨c, t, rfl⟩
  have hc : isPySpace c = false := hs2 c (by simp [hsrc])
  have hshape : canonLine a = c :: (t ++ (' ' ::
      (joinFields [a.name, a.fstype, a.opts, a.dump, a.passno] ++ ['\n']))) := by
    rw [canonLine_eq]
    simp [joinFields, hsrc]
  rw [hshape, pyStrip_head c _ hc, hsrc]
  simp

theorem canon_notBlank (a : Args) (h : ArgsWf a) : ¬ pyStrip (canonLine a) = [] := by
  intro hb
  have := canon_strip_head a h
  rw [hb] at this
  obtain ⟨⟨hs1, _⟩, _⟩ := h
  cases hsrc : a.src with
  | nil => exact hs1 hsrc
  | cons c t => rw [hsrc] at this; simp at this

theorem canon_notComment (a : Args) (h : ArgsWf a) :
    ¬ (pyStrip (canonLine a)).head? = some '#' := by
  intro hb
  rw [canon_strip_head a h] at hb
  exact h.2.2.2.2.2.2 hb

theorem canon_tracked (a : Args) (h : ArgsWf a) : isTracked a (canonLine a) = true := by
  rw [isTracked, decide_eq_true_iff]
  refine ⟨canon_notBlank a h, canon_notComment a h, ?_, ?_⟩ <;>
    rw [canon_splitWords a h] <;> rfl

theorem canon_fieldsEq (a : Args) (h : ArgsWf a) :
    fieldsEqArgsB a (canonLine a) = true := by
  rw [fieldsEqArgsB, decide_eq_true_iff]
  rw [canon_splitWords a h]
  exact ⟨rfl, rfl, rfl, rfl, rfl⟩

theorem canon_nl (a : Args) (h : ArgsWf a) : isNlLine (canonLine a) := by
  rw [canonLine_eq]
  refine ⟨by simp, by simp, ?_⟩
  rw [List.dropLast_concat]
  intro hmem
  rcases mem_joinFields _ _ hmem with ⟨w, hw, hc⟩ | hsp
  · have := (argsWf_fields a h w hw).2 '\n' hc
    simp [isPySpace] at this
  · simp at hsp

/-! ### Lemmas about the upsert loop -/

theorem setLoop_cons (a : Args) (l : Line) (ls : List Line) (ex ch : Bool) :
    setLoop a (l :: ls) ex ch =
      if isTracked a l then
        ((if ch || !(fieldsEqArgsB a l) then canonLine a else l) ::
          (setLoop a ls true (ch || !(fieldsEqArgsB a l))).1,
         (setLoop a ls true (ch || !(fieldsEqArgsB a l))).2)
      else (l :: (setLoop a ls ex ch).1, (setLoop a ls ex ch).2) := by
  simp only [setLoop]
  by_cases hb : pyStrip l = []
  · have ht : isTracked a l = false := by simp [isTracked, hb]
    rw [if_pos hb, ht]
    simp only [Bool.false_eq_true, if_false]
  · rw [if_neg hb]
    by_cases hc : (pyStrip l).head? = some '#'
    · have ht : isTracked a l = false := by simp [isTracked, hc]
      rw [if_pos hc, ht]
      simp only [Bool.false_eq_true, if_false]
    · rw [if_neg hc]
      by_cases hl6 : (splitWords l).length = 6
      · rw [if_neg (by simpa using hl6)]
        by_cases hn : (splitWords l).get? 1 = some a.name
        · have ht : isTracked a l = true := by
            rw [isTracked, decide_eq_true_iff]
            exact ⟨hb, hc, hl6, hn⟩
          rw [if_neg (by simpa using hn), ht]
          simp only [if_true]
          by_cases hch : (ch || !(fieldsEqArgsB a l)) = true
          · rw [if_pos hch, if_pos hch]
          · have hch' : (ch || !(fieldsEqArgsB a l)) = false := by simpa using hch
            have hch0 : ch = false := (Bool.or_eq_false_iff.mp hch').1
            rw [if_neg hch, if_neg hch, hch', hch0]
        · have ht : isTracked a l = false := by
            rw [isTracked, decide_eq_false_iff_not]
            intro hcon
            exact hn hcon.2.2.2
          rw [if_pos (by simpa using hn), ht]
          simp only [Bool.false_eq_true, if_false]
      · have ht : isTracked a l = false := by simp [isTracked, hl6]
        rw [if_pos (by simpa using hl6), ht]
        simp only [Bool.false_eq_true, if_false]

theorem setLoop_ex (a : Args) (ls : List Line) :
    ∀ ex ch, (setLoop a ls ex ch).2.1 = (ex || ls.any (fun l => isTracked a l)) := by
  induction ls with
  | nil => intro ex ch; simp [setLoop]
  | cons l ls ih =>
    intro ex ch
    rw [setLoop_cons]
    cases ht : isTracked a l
    · simp [ht, ih]
    · simp [ht, ih]

theorem setLoop_ch (a : Args) (ls : List Line) :
    ∀ ex ch, (setLoop a ls ex ch).2.2 =
      (ch || ls.any (fun l => isTracked a l && !(fieldsEqArgsB a l))) := by
  induction ls with
  | nil => intro ex ch; simp [setLoop]
  | cons l ls ih =>
    intro ex ch
    rw [setLoop_cons]
    cases ht : isTracked a l
    · simp [ht, ih]
    · cases hf : fieldsEqArgsB a l <;> cases ch <;> simp [ht, hf, ih]

theorem setLoop_rel (a : Args) (ls : List Line) :
    ∀ ex ch, List.Forall₂
      (fun x y => y = x ∨ (isTracked a x = true ∧ y = canonLine a))
      ls (setLoop a ls ex ch).1 := by
  induction ls with
  | nil => intro ex ch; simp [setLoop]
  | cons l ls ih =>
    intro ex ch
    rw [setLoop_cons]
    cases ht : isTracked a l
    · simp only [Bool.false_eq_true, if_false]
      exact List.Forall₂.cons (Or.inl rfl) (ih ex ch)
    · simp only [if_true]
      by_cases hch : (ch || !(fieldsEqArgsB a l)) = true
      · rw [hch]
        exact List.Forall₂.cons (Or.inr ⟨ht, by simp⟩) (ih true _)
      · have hch' : (ch || !(fieldsEqArgsB a l)) = false := by simpa using hch
        rw [hch']
        exact List.Forall₂.cons (Or.inl (by simp)) (ih true _)

theorem setLoop_stable (a : Args) (hwf : ArgsWf a) (ls : List Line) :
    ∀ ex ch, ∀ y ∈ (setLoop a ls ex ch).1,
      isTracked a y = true → fieldsEqArgsB a y = true := by
  induction ls with
  | nil => intro ex ch y hy; simp [setLoop] at hy
  | cons l ls ih =>
    intro ex ch y hy htr
    rw [setLoop_cons] at hy
    cases ht : isTracked a l
    · rw [ht] at hy
      simp only [Bool.false_eq_true, if_false] at hy
      rcases List.mem_cons.mp hy with rfl | hy2
      · exact absurd htr (by simp [ht])
      · exact ih ex ch y hy2 htr
    · rw [ht] at hy
      simp only [if_true] at hy
      by_cases hch : (ch || !(fieldsEqArgsB a l)) = true
      · rw [hch] at hy
        simp only [if_true] at hy
        rcases List.mem_cons.mp hy with rfl | hy2
        · exact canon_fieldsEq a hwf
        · exact ih true _ y hy2 htr
      · have hch' : (ch || !(fieldsEqArgsB a l)) = false := by simpa using hch
        have hf : fieldsEqArgsB a l = true := by
          rcases Bool.or_eq_false_iff.mp hch' with ⟨_, h2⟩
          simpa using h2
        rw [hch'] at hy
        simp only [Bool.false_eq_true, if_false] at hy
        rcases List.mem_cons.mp hy with rfl | hy2
        · exact hf
        · exact ih true _ y hy2 htr

theorem setLoop_second (a : Args) (ls : List Line)
    (hst : ∀ l ∈ ls, isTracked a l = true → fieldsEqArgsB a l = true) :
    ∀ ex, setLoop a ls ex false =
      (ls, ex || ls.any (fun l => isTracked a l), false) := by
  induction ls with
  | nil => intro ex; simp [setLoop]
  | cons l ls ih =>
    intro ex
    rw [setLoop_cons]
    cases ht : isTracked a l
    · rw [ih (fun x hx => hst x (by simp [hx])) ex]
      simp [ht]
    · have hf : fieldsEqArgsB a l = true := hst l (by simp) ht
      rw [hf]
      simp only [Bool.not_true, Bool.or_false, Bool.false_eq_true, if_false, if_true]
      rw [ih (fun x hx => hst x (by simp [hx])) true]
      simp [ht]

theorem setLoop_tracked_mem (a : Args) (hwf : ArgsWf a) (ls : List Line) :
    ∀ ex ch, ls.any (fun l => isTracked a l) = true →
      ∃ y ∈ (setLoop a ls ex ch).1, isTracked a y = true := by
  induction ls with
  | nil => intro ex ch h; simp at h
  | cons l ls ih =>
    intro ex ch hany
    rw [setLoop_cons]
    cases ht : isTracked a l
    · simp only [Bool.false_eq_true, if_false]
      have hany2 : ls.any (fun l => isTracked a l) = true := by
        simpa [ht] using hany
      obtain ⟨y, hy, hty⟩ := ih ex ch hany2
      exact ⟨y, by simp [hy], hty⟩
    · simp only [if_true]
      by_cases hch : (ch || !(fieldsEqArgsB a l)) = true
      · rw [if_pos hch]
        exact ⟨canonLine a, by simp, canon_tracked a hwf⟩
      · rw [if_neg hch]
        exact ⟨l, by simp, ht⟩

theorem setLoop_nl (a : Args) (hwf : ArgsWf a) (ls : List Line)
    (hnl : ∀ l ∈ ls, isNlLine l) :
    ∀ ex ch, ∀ y ∈ (setLoop a ls ex ch).1, isNlLine y := by
  induction ls with
  | nil => intro ex ch y hy; simp [setLoop] at hy
  | cons l ls ih =>
    intro ex ch y hy
    rw [setLoop_cons] at hy
    cases ht : isTracked a l
    · rw [ht] at hy
      simp only [Bool.false_eq_true, if_false] at hy
      rcases List.mem_cons.mp hy with rfl | hy2
      · exact hnl y (by simp)
      · exact ih (fun x hx => hnl x (by simp [hx])) ex ch y hy2
    · rw [ht] at hy
      simp only [if_true] at hy
      rcases List.mem_cons.mp hy with rfl | hy2
      · by_cases hch : (ch || !(fieldsEqArgsB a l)) = true
        · rw [hch] at hy ⊢
          exact canon_nl a hwf
        · have hch' : (ch || !(fieldsEqArgsB a l)) = false := by simpa using hch
          rw [hch']
          exact hnl l (by simp)
      · exact ih (fun x hx => hnl x (by simp [hx])) true _ y hy2

theorem setLoop_countP (a : Args) (hwf : ArgsWf a) (ls : List Line) :
    ∀ ex ch, List.countP (fun l => isTracked a l) (setLoop a ls ex ch).1 =
      List.countP (fun l => isTracked a l) ls := by
  induction ls with
  | nil => intro ex ch; simp [setLoop]
  | cons l ls ih =>
    intro ex ch
    rw [setLoop_cons]
    cases ht : isTracked a l
    · simp [List.countP_cons, ht, ih]
    · simp only [if_true]
      by_cases hch : (ch || !(fieldsEqArgsB a l)) = true
      · rw [hch]
        simp [List.countP_cons, ht, ih, canon_tracked a hwf]
      · have hch' : (ch || !(fieldsEqArgsB a l)) = false := by simpa using hch
        rw [hch']
        simp [List.countP_cons, ht, ih]

theorem filter_mono_sublist (p q : Line → Bool) (h : ∀ x, p x = true → q x = true) :
    ∀ l : List Line, List.Sublist (l.filter p) (l.filter q) := by
  intro l
  induction l with
  | nil => simp
  | cons x xs ih =>
    by_cases hp : p x = true
    · have hq := h x hp
      simp only [List.filter_cons, hp, hq, if_true]
      exact ih.cons₂ x
    · have hp' : p x = false := by simpa using hp
      by_cases hq : q x = true
      · simp only [List.filter_cons, hp', hq, Bool.false_eq_true, if_false, if_true]
        exact ih.cons x
      · have hq' : q x = false := by simpa using hq
        simp only [List.filter_cons, hp', hq', Bool.false_eq_true, if_false]
        exact ih

theorem setLoop_filter_sub (a : Args) (ls : List Line) :
    ∀ ex ch, List.Sublist (ls.filter (fun l => !(isTracked a l)))
      (setLoop a ls ex ch).1 := by
  induction ls with
  | nil => intro ex ch; simp [setLoop]
  | cons l ls ih =>
    intro ex ch
    rw [setLoop_cons]
    cases ht : isTracked a l
    · simp only [Bool.false_eq_true, if_false, List.filter_cons, ht, Bool.not_false,
        if_true]
      exact (ih ex ch).cons₂ l
    · simp only [if_true, List.filter_cons, ht, Bool.not_true, Bool.false_eq_true,
        if_false]
      exact (ih true _).cons _

/-! ### Lemmas about the removal loop -/

theorem unsetLoop_cons (a : Args) (l : Line) (ls : List Line) (ch : Bool) :
    unsetLoop a (l :: ls) ch =
      if isTracked a l then unsetLoop a ls true
      else (l :: (unsetLoop a ls ch).1, (unsetLoop a ls ch).2) := by
  simp only [unsetLoop]
  by_cases hb : pyStrip l = []
  · have ht : isTracked a l = false := by simp [isTracked, hb]
    rw [if_pos hb, ht]
    simp only [Bool.false_eq_true, if_false]
  · rw [if_neg hb]
    by_cases hc : (pyStrip l).head? = some '#'
    · have ht : isTracked a l = false := by simp [isTracked, hc]
      rw [if_pos hc, ht]
      simp only [Bool.false_eq_true, if_false]
    · rw [if_neg hc]
      by_cases hl6 : (splitWords l).length = 6
      · rw [if_neg (by simpa using hl6)]
        by_cases hn : (splitWords l).get? 1 = some a.name
        · have ht : isTracked a l = true := by
            rw [isTracked, decide_eq_true_iff]
            exact ⟨hb, hc, hl6, hn⟩
          rw [if_neg (by simpa using hn), ht]
          simp only [if_true]
        · have ht : isTracked a l = false := by
            rw [isTracked, decide_eq_false_iff_not]
            intro hcon
            exact hn hcon.2.2.2
          rw [if_pos (by simpa using hn), ht]
          simp only [Bool.false_eq_true, if_false]
      · have ht : isTracked a l = false := by simp [isTracked, hl6]
        rw [if_pos (by simpa using hl6), ht]
        simp only [Bool.false_eq_true, if_false]

theorem unsetLoop_eq (a : Args) (ls : List Line) :
    ∀ ch, unsetLoop a ls ch =
      (ls.filter (fun l => !(isTracked a l)),
       ch || ls.any (fun l => isTracked a l)) := by
  induction ls with
  | nil => intro ch; simp [unsetLoop]
  | cons l ls ih =>
    intro ch
    rw [unsetLoop_cons]
    cases ht : isTracked a l
    · simp [List.filter_cons, ht, ih]
    · simp [List.filter_cons, ht, ih]

/-! ### Facts about set_mount, unset_mount and the file-level runs -/

theorem set_mount_eq_pos (a : Args) (ls : List Line)
    (hany : ls.any (fun l => isTracked a l) = true) :
    set_mount a ls = ((setLoop a ls false false).1,
      ls.any (fun l => isTracked a l && !(fieldsEqArgsB a l))) := by
  rw [set_mount]
  have hex : (setLoop a ls false false).2.1 = true := by
    rw [setLoop_ex]; simp [hany]
  rw [if_pos hex, setLoop_ch]
  simp

theorem set_mount_eq_neg (a : Args) (ls : List Line)
    (hany : ls.any (fun l => isTracked a l) = false) :
    set_mount a ls = ((setLoop a ls false false).1 ++ [canonLine a], true) := by
  rw [set_mount]
  have hex : (setLoop a ls false false).2.1 = false := by
    rw [setLoop_ex]; simp [hany]
  rw [if_neg (by simp [hex])]

theorem set_mount_changed (a : Args) (ls : List Line) :
    (set_mount a ls).2 =
      (!(ls.any (fun l => isTracked a l)) ||
        ls.any (fun l => isTracked a l && !(fieldsEqArgsB a l))) := by
  cases hany : ls.any (fun l => isTracked a l)
  · rw [set_mount_eq_neg a ls hany]; simp
  · rw [set_mount_eq_pos a ls hany]; simp

theorem set_mount_out_stable (a : Args) (hwf : ArgsWf a) (ls : List Line) :
    ∀ y ∈ (set_mount a ls).1, isTracked a y = true → fieldsEqArgsB a y = true := by
  intro y hy
  cases hany : ls.any (fun l => isTracked a l)
  · rw [set_mount_eq_neg a ls hany] at hy
    rcases List.mem_append.mp hy with hy2 | hy2
    · exact setLoop_stable a hwf ls false false y hy2
    · intro _
      rw [List.mem_singleton.mp hy2]
      exact canon_fieldsEq a hwf
  · rw [set_mount_eq_pos a ls hany] at hy
    exact setLoop_stable a hwf ls false false y hy

theorem set_mount_out_nl (a : Args) (hwf : ArgsWf a) (ls : List Line)
    (hnl : ∀ l ∈ ls, isNlLine l) :
    ∀ y ∈ (set_mount a ls).1, isNlLine y := by
  intro y hy
  cases hany : ls.any (fun l => isTracked a l)
  · rw [set_mount_eq_neg a ls hany] at hy
    rcases List.mem_append.mp hy with hy2 | hy2
    · exact setLoop_nl a hwf ls hnl false false y hy2
    · rw [List.mem_singleton.mp hy2]
      exact canon_nl a hwf
  · rw [set_mount_eq_pos a ls hany] at hy
    exact setLoop_nl a hwf ls hnl false false y hy

theorem set_mount_out_tracked (a : Args) (hwf : ArgsWf a) (ls : List Line) :
    ∃ y ∈ (set_mount a ls).1, isTracked a y = true := by
  cases hany : ls.any (fun l => isTracked a l)
  · rw [set_mount_eq_neg a ls hany]
    exact ⟨canonLine a, by simp, canon_tracked a hwf⟩
  · rw [set_mount_eq_pos a ls hany]
    exact setLoop_tracked_mem a hwf ls false false hany

theorem set_mount_second (a : Args) (ls : List Line)
    (hst : ∀ l ∈ ls, isTracked a l = true → fieldsEqArgsB a l = true)
    (hex : ∃ y ∈ ls, isTracked a y = true) :
    set_mount a ls = (ls, false) := by
  have hany : ls.any (fun l => isTracked a l) = true := List.any_eq_true.mpr hex
  rw [set_mount, setLoop_second a ls hst false]
  simp [hany]

theorem set_mount_run_changed (a : Args) (c : List Char) :
    (set_mount_run a c).changed = (set_mount a (pyReadlines c)).2 := by
  rw [set_mount_run]
  cases h : (set_mount a (pyReadlines c)).2 <;> simp [h]

theorem set_mount_run_content_pos (a : Args) (c : List Char)
    (h : (set_mount a (pyReadlines c)).2 = true) :
    (set_mount_run a c).content = (set_mount a (pyReadlines c)).1.flatten := by
  rw [set_mount_run]
  simp [h]

theorem set_mount_run_content_neg (a : Args) (c : List Char)
    (h : (set_mount a (pyReadlines c)).2 = false) :
    (set_mount_run a c).content = c := by
  rw [set_mount_run]
  simp [h]

theorem unset_mount_run_changed (a : Args) (c : List Char) :
    (unset_mount_run a c).changed = (unset_mount a (pyReadlines c)).2 := by
  rw [unset_mount_run]
  cases h : (unset_mount a (pyReadlines c)).2 <;> simp [h]

theorem unset_mount_run_content_pos (a : Args) (c : List Char)
    (h : (unset_mount a (pyReadlines c)).2 = true) :
    (unset_mount_run a c).content = (unset_mount a (pyReadlines c)).1.flatten := by
  rw [unset_mount_run]
  simp [h]

theorem unset_mount_run_content_neg (a : Args) (c : List Char)
    (h : (unset_mount a (pyReadlines c)).2 = false) :
    (unset_mount_run a c).content = c := by
  rw [unset_mount_run]
  simp [h]

theorem set_run_lines_nl (a : Args) (c : List Char) (hwf : ArgsWf a)
    (hnl : NlContent c) :
    ∀ l ∈ pyReadlines ((set_mount_run a c).content), isNlLine l := by
  by_cases h : (set_mount a (pyReadlines c)).2 = true
  · rw [set_mount_run_content_pos a c h,
      pyReadlines_flatten _ (set_mount_out_nl a hwf _ (pyReadlines_nl c hnl))]
    exact set_mount_out_nl a hwf _ (pyReadlines_nl c hnl)
  · rw [set_mount_run_content_neg a c (by simpa using h)]
    exact pyReadlines_nl c hnl

theorem unset_run_clears (a : Args) (c1 : List Char)
    (hnl1 : ∀ l ∈ pyReadlines c1, isNlLine l) :
    ∀ l ∈ pyReadlines ((unset_mount_run a c1).content), isTracked a l = false := by
  by_cases h : (unset_mount a (pyReadlines c1)).2 = true
  · rw [unset_mount_run_content_pos a c1 h]
    have hfil : (unset_mount a (pyReadlines c1)).1 =
        (pyReadlines c1).filter (fun l => !(isTracked a l)) := by
      rw [unset_mount, unsetLoop_eq]
    rw [hfil, pyReadlines_flatten _
      (fun l hl => hnl1 l (List.mem_of_mem_filter hl))]
    intro l hl
    have := List.of_mem_filter hl
    simpa using this
  · have h2 : (unset_mount a (pyReadlines c1)).2 = false := by simpa using h
    have hany : (pyReadlines c1).any (fun l => isTracked a l) = false := by
      rw [unset_mount, unsetLoop_eq] at h2
      simpa using h2
    rw [unset_mount_run_content_neg a c1 h2]
    intro l hl
    simpa using List.any_eq_false.mp hany l hl

/-! ### Claim theorems -/

theorem opaque_untracked (a : Args) (l : Line) (h : isOpaque l = true) :
    (!(isTracked a l)) = true := by
  rw [isOpaque, Bool.not_eq_true'] at h
  rw [isEntryLine, decide_eq_false_iff_not] at h
  rw [Bool.not_eq_true', isTracked, decide_eq_false_iff_not]
  intro hcon
  exact h ⟨hcon.1, hcon.2.1, hcon.2.2.1⟩

/-- Claim C4: in both the upsert and the removal rewrite, every opaque line
of the loaded table (blank, comment, or field count different from 6) is
emitted byte-identical in its original relative order; more generally every
line whose target field differs from the requested name passes through
byte-identical in order, the removal output is exactly the non-matching
lines, and in the upsert each input line is either kept byte-identical or —
only when its target field equals the requested name — replaced by the
canonical desired line. -/
theorem claim4_opaque_passthrough (a : Args) (ls : List Line) :
    List.Sublist (ls.filter (fun l => isOpaque l)) (set_mount a ls).1 ∧
    List.Sublist (ls.filter (fun l => isOpaque l)) (unset_mount a ls).1 ∧
    List.Sublist (ls.filter (fun l => !(isTracked a l))) (set_mount a ls).1 ∧
    (unset_mount a ls).1 = ls.filter (fun l => !(isTracked a l)) ∧
    List.Forall₂ (fun x y => y = x ∨ (isTracked a x = true ∧ y = canonLine a)) ls
      (setLoop a ls false false).1 := by
  have hsub : List.Sublist (ls.filter (fun l => !(isTracked a l))) (set_mount a ls).1 := by
    cases hany : ls.any (fun l => isTracked a l)
    · rw [set_mount_eq_neg a ls hany]
      exact (setLoop_filter_sub a ls false false).trans (List.sublist_append_left _ _)
    · rw [set_mount_eq_pos a ls hany]
      exact setLoop_filter_sub a ls false false
  have huns : (unset_mount a ls).1 = ls.filter (fun l => !(isTracked a l)) := by
    rw [unset_mount, unsetLoop_eq]
  refine ⟨?_, ?_, hsub, huns, setLoop_rel a ls false false⟩
  · exact (filter_mono_sublist _ _ (opaque_untracked a) ls).trans hsub
  · rw [huns]
    exact filter_mono_sublist _ _ (opaque_untracked a) ls

/-- Claim C5: the removal drops exactly the 6-field entries whose target
field equals the requested name — the predicate never inspects the source,
type, options, dump, or pass fields — and reports changed exactly when at
least one such entry was present to drop. -/
theorem claim5_remove_unconditional (a : Args) (ls : List Line) :
    (unset_mount a ls).1 = ls.filter (fun l => !(isTracked a l)) ∧
    ((unset_mount a ls).2 = true ↔ ∃ l ∈ ls, isTracked a l = true) := by
  rw [unset_mount, unsetLoop_eq]
  refine ⟨rfl, ?_⟩
  simp [List.any_eq_true]

/-- Claim C6, counterexample to the claim as stated: the line built from the
six nonempty whitespace-free fields `#a b c d e f` (single-space joined,
newline-terminated) decodes to an opaque line, not an entry, because after
stripping it begins with `#`; so encode(decode(line)) does not return the
line. -/
theorem claim6_counterexample :
    EntryFieldsOk entryHash ∧ decodeLine (encodeEntry entryHash) = none := by
  constructor
  · decide
  · decide

/-- Claim C6 (amended: the first field additionally must not begin with
`#`): decoding the encoded line yields the entry back positionally, and
re-encoding the decoded entry reproduces the line byte-for-byte. -/
theorem claim6_roundtrip (e : MountEntry) (hwf : EntryWf e) :
    decodeLine (encodeEntry e) = some e ∧
    Option.map encodeEntry (decodeLine (encodeEntry e)) = some (encodeEntry e) := by
  have ha : ArgsWf ⟨e.name, e.src, e.fstype, e.opts, e.dump, e.passno⟩ := by
    obtain ⟨h1, h2, h3, h4, h5, h6, h7⟩ := hwf
    exact ⟨h1, h2, h3, h4, h5, h6, h7⟩
  have hcanon : canonLine ⟨e.name, e.src, e.fstype, e.opts, e.dump, e.passno⟩ =
      encodeEntry e := rfl
  have hb := canon_notBlank _ ha
  have hc := canon_notComment _ ha
  have hsw := canon_splitWords _ ha
  rw [hcanon] at hb hc hsw
  have hdec : decodeLine (encodeEntry e) = some e := by
    unfold decodeLine
    rw [if_neg hb, if_neg hc, hsw]
  exact ⟨hdec, by rw [hdec]; rfl⟩

theorem claim6_witness :
    decodeLine (encodeEntry entryEx) = some entryEx ∧
    Option.map encodeEntry (decodeLine (encodeEntry entryEx)) =
      some (encodeEntry entryEx) :=
  claim6_roundtrip entryEx (by decide)

/-- Claim C8: each reconciliation performs at most one file write; when it
reports changed=false it performs no write and returns the file bytes
untouched, and any write implies changed=true. -/
theorem claim8_write_discipline (a : Args) (c : List Char) :
    ((set_mount_run a c).changed = false →
      (set_mount_run a c).writes = [] ∧ (set_mount_run a c).content = c) ∧
    (set_mount_run a c).writes.length ≤ 1 ∧
    ((set_mount_run a c).writes = [] ∨ (set_mount_run a c).changed = true) ∧
    ((unset_mount_run a c).changed = false →
      (unset_mount_run a c).writes = [] ∧ (unset_mount_run a c).content = c) ∧
    (unset_mount_run a c).writes.length ≤ 1 ∧
    ((unset_mount_run a c).writes = [] ∨ (unset_mount_run a c).changed = true) := by
  by_cases hs : (set_mount a (pyReadlines c)).2 = true <;>
    by_cases hu : (unset_mount a (pyReadlines c)).2 = true <;>
      refine ⟨?_, ?_, ?_, ?_, ?_, ?_⟩ <;>
        simp [set_mount_run, unset_mount_run, hs, hu]

theorem claim8_witness :
    (set_mount_run argsEx contentEx).writes = [] ∧
    (set_mount_run argsEx contentEx).content = contentEx :=
  (claim8_write_discipline argsEx contentEx).1 (by decide)

/-- Claim C10: an empty OS mount list mapping aborts the invocation with the
query failure before the table file is created, read, or modified — for
every requested state, the file component is returned exactly as it was
(even still absent), and no mount or umount action is invoked. -/
theorem claim10_empty_query_fatal (a : Args) (st : MState) (env : Env)
    (file : Option (List Char)) (hq : env.mountedFs = []) :
    mainModel a st env file = ⟨.failQuery, file, false, false⟩ := by
  simp [mainModel, hq]

theorem claim10_witness :
    mainModel argsEx .present envEmptyQ (some contentEx) =
      ⟨.failQuery, some contentEx, false, false⟩ :=
  claim10_empty_query_fatal argsEx .present envEmptyQ (some contentEx) (by decide)

/-- Claim C1, counterexample to the claim as stated: on a table that already
holds exactly the desired entry, the first application of the present-state
reconciliation reports changed=false, not changed=true. -/
theorem claim1_counterexample :
    (set_mount_run argsEx contentEx).changed = false := by decide

/-- Claim C1 (amended: for any spec with nonempty whitespace-free fields
whose source does not begin with `#`, and any newline-terminated or empty
table file, the second application reports changed=false and leaves the
bytes of the first application's result untouched; the first application
reports changed=true exactly when no entry matched the name or some
matching entry differed in a compared field). -/
theorem claim1_present_idempotent (a : Args) (c : List Char) (hwf : ArgsWf a)
    (hnl : NlContent c) :
    (set_mount_run a (set_mount_run a c).content).changed = false ∧
    (set_mount_run a (set_mount_run a c).content).content =
      (set_mount_run a c).content ∧
    (set_mount_run a c).changed =
      (!((pyReadlines c).any (fun l => isTracked a l)) ||
        (pyReadlines c).any (fun l => isTracked a l && !(fieldsEqArgsB a l))) := by
  have hchar1 : (set_mount_run a c).changed = (set_mount a (pyReadlines c)).2 :=
    set_mount_run_changed a c
  by_cases h : (set_mount a (pyReadlines c)).2 = true
  · have hcont1 : (set_mount_run a c).content =
        (set_mount a (pyReadlines c)).1.flatten :=
      set_mount_run_content_pos a c h
    have hnl1 : ∀ y ∈ (set_mount a (pyReadlines c)).1, isNlLine y :=
      set_mount_out_nl a hwf _ (pyReadlines_nl c hnl)
    have hread : pyReadlines ((set_mount_run a c).content) =
        (set_mount a (pyReadlines c)).1 := by
      rw [hcont1]
      exact pyReadlines_flatten _ hnl1
    have hsecond : set_mount a (set_mount a (pyReadlines c)).1 =
        ((set_mount a (pyReadlines c)).1, false) :=
      set_mount_second a _ (set_mount_out_stable a hwf _)
        (set_mount_out_tracked a hwf _)
    have hch2 : (set_mount_run a (set_mount_run a c).content).changed = false := by
      rw [set_mount_run_changed, hread, hsecond]
    refine ⟨hch2, ?_, by rw [hchar1, set_mount_changed]⟩
    rw [set_mount_run_content_neg _ _ (by rw [hread, hsecond])]
  · have h2 : (set_mount a (pyReadlines c)).2 = false := by simpa using h
    have hcont1 : (set_mount_run a c).content = c := set_mount_run_content_neg a c h2
    refine ⟨?_, ?_, by rw [hchar1, set_mount_changed]⟩
    · rw [hcont1, set_mount_run_changed, h2]
    · rw [hcont1, hcont1]

theorem claim1_witness :
    (set_mount_run argsEx (set_mount_run argsEx contentEx).content).changed = false ∧
    (set_mount_run argsEx (set_mount_run argsEx contentEx).content).content =
      (set_mount_run argsEx contentEx).content ∧
    (set_mount_run argsEx contentEx).changed =
      (!((pyReadlines contentEx).any (fun l => isTracked argsEx l)) ||
        (pyReadlines contentEx).any
          (fun l => isTracked argsEx l && !(fieldsEqArgsB argsEx l))) :=
  claim1_present_idempotent argsEx contentEx (by decide) (by decide)

/-- Claim C2, counterexample to the claim as stated: the present-state
convergence applied to a table that already holds two identical entries for
the target leaves both in place, so the resulting table holds two
(not at most one) entries whose target equals the requested name. -/
theorem claim2_counterexample :
    List.countP (fun l => isTracked argsEx l)
      (pyReadlines (set_mount_run argsEx contentDup).content) = 2 := by decide

/-- Claim C2 (amended: for any spec with nonempty whitespace-free fields
whose source does not begin with `#`, and any newline-terminated or empty
table file, the number of entries matching the name after the upsert is the
maximum of 1 and the number before it — so the convergence guarantees at
most one matching entry only for starting tables that held at most one). -/
theorem claim2_match_count (a : Args) (c : List Char) (hwf : ArgsWf a)
    (hnl : NlContent c) :
    List.countP (fun l => isTracked a l)
      (pyReadlines (set_mount_run a c).content) =
      max 1 (List.countP (fun l => isTracked a l) (pyReadlines c)) := by
  by_cases h : (set_mount a (pyReadlines c)).2 = true
  · have hread : pyReadlines ((set_mount_run a c).content) =
        (set_mount a (pyReadlines c)).1 := by
      rw [set_mount_run_content_pos a c h]
      exact pyReadlines_flatten _ (set_mount_out_nl a hwf _ (pyReadlines_nl c hnl))
    rw [hread]
    cases hany : (pyReadlines c).any (fun l => isTracked a l)
    · rw [set_mount_eq_neg a _ hany]
      rw [List.countP_append, setLoop_countP a hwf _ false false]
      have h0 : List.countP (fun l => isTracked a l) (pyReadlines c) = 0 := by
        rw [List.countP_eq_zero]
        intro x hx
        simpa using List.any_eq_false.mp hany x hx
      rw [h0]
      simp [List.countP_cons, canon_tracked a hwf]
    · rw [set_mount_eq_pos a _ hany, setLoop_countP a hwf _ false false]
      have h1 : 0 < List.countP (fun l => isTracked a l) (pyReadlines c) := by
        rw [List.countP_pos_iff]
        exact List.any_eq_true.mp hany
      omega
  · have h2 : (set_mount a (pyReadlines c)).2 = false := by simpa using h
    rw [set_mount_run_content_neg a c h2]
    have hany : (pyReadlines c).any (fun l => isTracked a l) = true := by
      rw [set_mount_changed] at h2
      rcases Bool.or_eq_false_iff.mp h2 with ⟨h1, _⟩
      simpa using h1
    have h1 : 0 < List.countP (fun l => isTracked a l) (pyReadlines c) := by
      rw [List.countP_pos_iff]
      exact List.any_eq_true.mp hany
    omega

theorem claim2_witness :
    List.countP (fun l => isTracked argsEx l)
      (pyReadlines (set_mount_run argsEx contentEx).content) =
      max 1 (List.countP (fun l => isTracked argsEx l) (pyReadlines contentEx)) :=
  claim2_match_count argsEx contentEx (by decide) (by decide)

/-- Claim C3, counterexample to the claim as stated: with the target already
in the OS mount list, the table entry already correct (upsert reports
changed=false), but the mount-point directory missing and its creation
succeeding, the mount action is nevertheless invoked — because the code
tests the cumulative changed flag, which the directory creation set. -/
theorem claim3_counterexample :
    (mainModel argsEx .mounted envRemount (some contentEx)).mountCalled = true ∧
    (set_mount_run argsEx contentEx).changed = false ∧
    argsEx.name ∈ envRemount.mountedFs := by
  refine ⟨by decide, by decide, by decide⟩

/-- Claim C3 (amended: in the mounted state the mount action is invoked iff
the mkdir step did not abort and (the target is absent from the OS mount
list, or the table entry changed during the upsert, or the mount-point
directory was created during this invocation)). -/
theorem claim3_mount_invocation (a : Args) (env : Env) (file : Option (List Char))
    (hq : env.mountedFs ≠ []) :
    ((mainModel a .mounted env file).mountCalled = true ↔
      ((env.dirExists = true ∨ env.mkdirOk = true) ∧
       (a.name ∉ env.mountedFs ∨ (set_mount_run a (file.getD [])).changed = true ∨
        (env.dirExists = false ∧ env.mkdirOk = true)))) := by
  cases hd : env.dirExists
  · cases hm : env.mkdirOk
    · simp [mainModel, hq, hd, hm]
    · by_cases hrc : env.mountRc ≠ 0 <;>
        simp [mainModel, mountStep, hq, hd, hm, hrc]
  · by_cases hmem : a.name ∈ env.mountedFs
    · by_cases hch : (set_mount_run a (file.getD [])).changed = true
      · by_cases hrc : env.mountRc ≠ 0 <;>
          simp [mainModel, mountStep, hq, hd, hmem, hch, hrc]
      · simp [mainModel, mountStep, hq, hd, hmem, hch]
    · by_cases hrc : env.mountRc ≠ 0 <;>
        simp [mainModel, mountStep, hq, hd, hmem, hrc]

theorem claim3_witness :
    (mainModel argsEx .mounted envPlain (some contentEx)).mountCalled = true ↔
      ((envPlain.dirExists = true ∨ envPlain.mkdirOk = true) ∧
       (argsEx.name ∉ envPlain.mountedFs ∨
        (set_mount_run argsEx contentEx).changed = true ∨
        (envPlain.dirExists = false ∧ envPlain.mkdirOk = true))) :=
  claim3_mount_invocation argsEx envPlain (some contentEx) (by decide)

/-- Claim C7: in the mounted state, a failing directory creation, or a
failing mount action (in either the directory-existed or the
directory-created path), first compensates the table edit by removing the
entry for the target and then aborts with the corresponding fatal outcome. -/
theorem claim7_mounted_failure_compensation (a : Args) (env : Env)
    (file : Option (List Char)) (hq : env.mountedFs ≠ []) :
    (env.dirExists = false → env.mkdirOk = false →
      mainModel a .mounted env file =
        ⟨.failMkdir,
         some (unset_mount_run a (set_mount_run a (file.getD [])).content).content,
         false, false⟩) ∧
    (env.dirExists = true → env.mountRc ≠ 0 →
      (a.name ∉ env.mountedFs ∨ (set_mount_run a (file.getD [])).changed = true) →
      mainModel a .mounted env file =
        ⟨.failMount,
         some (unset_mount_run a (set_mount_run a (file.getD [])).content).content,
         true, false⟩) ∧
    (env.dirExists = false → env.mkdirOk = true → env.mountRc ≠ 0 →
      mainModel a .mounted env file =
        ⟨.failMount,
         some (unset_mount_run a (set_mount_run a (file.getD [])).content).content,
         true, false⟩) := by
  refine ⟨?_, ?_, ?_⟩
  · intro hd hm
    simp [mainModel, hq, hd, hm]
  · intro hd hrc hcond
    rcases hcond with hcond | hcond <;>
      simp [mainModel, mountStep, hq, hd, hcond, hrc]
  · intro hd hm hrc
    simp [mainModel, mountStep, hq, hd, hm, hrc]

theorem claim7_witness :
    mainModel argsEx .mounted envMkdirFail (some contentEx) =
      ⟨.failMkdir,
       some (unset_mount_run argsEx (set_mount_run argsEx contentEx).content).content,
       false, false⟩ :=
  (claim7_mounted_failure_compensation argsEx envMkdirFail (some contentEx)
    (by decide)).1 (by decide) (by decide)

/-- Claim C9 (implicit): the compensating removal run after a failed mkdir
or failed mount action deletes every table entry at the target rather than
restoring the pre-invocation field values — after any such failure the
resulting table file holds no entry whose target equals the requested name,
whatever the table held before. -/
theorem claim9_compensation_unconditional (a : Args) (env : Env) (c : List Char)
    (hwf : ArgsWf a) (hnl : NlContent c) (hq : env.mountedFs ≠ []) :
    ((mainModel a .mounted env (some c)).outcome = .failMkdir ∨
     (mainModel a .mounted env (some c)).outcome = .failMount) →
    ∀ l ∈ pyReadlines ((mainModel a .mounted env (some c)).file.getD []),
      isTracked a l = false := by
  intro hfail
  have hclear : ∀ l ∈ pyReadlines
      ((unset_mount_run a (set_mount_run a c).content).content),
      isTracked a l = false :=
    unset_run_clears a _ (set_run_lines_nl a c hwf hnl)
  cases hd : env.dirExists
  · cases hm : env.mkdirOk
    · have hres : mainModel a .mounted env (some c) =
          ⟨.failMkdir,
           some ((unset_mount_run a (set_mount_run a c).content).content),
           false, false⟩ := by
        simp [mainModel, hq, hd, hm]
      rw [hres]
      simpa using hclear
    · by_cases hrc : env.mountRc ≠ 0
      · have hres : mainModel a .mounted env (some c) =
            ⟨.failMount,
             some ((unset_mount_run a (set_mount_run a c).content).content),
             true, false⟩ := by
          simp [mainModel, mountStep, hq, hd, hm, hrc]
        rw [hres]
        simpa using hclear
      · have hres : mainModel a .mounted env (some c) =
            ⟨.ok true, some ((set_mount_run a c).content), true, false⟩ := by
          simp [mainModel, mountStep, hq, hd, hm, hrc]
        rw [hres] at hfail
        simp at hfail
  · by_cases hcond : (a.name ∉ env.mountedFs ∨ (set_mount_run a c).changed = true)
    · by_cases hrc : env.mountRc ≠ 0
      · have hres : mainModel a .mounted env (some c) =
            ⟨.failMount,
             some ((unset_mount_run a (set_mount_run a c).content).content),
             true, false⟩ := by
          rcases hcond with hcond | hcond <;>
            simp [mainModel, mountStep, hq, hd, hcond, hrc]
        rw [hres]
        simpa using hclear
      · have hres : mainModel a .mounted env (some c) =
            ⟨.ok (set_mount_run a c).changed,
             some ((set_mount_run a c).content), true, false⟩ := by
          rcases hcond with hcond | hcond <;>
            simp [mainModel, mountStep, hq, hd, hcond, hrc]
        rw [hres] at hfail
        simp at hfail
    · have hres : mainModel a .mounted env (some c) =
          ⟨.ok (set_mount_run a c).changed,
           some ((set_mount_run a c).content), false, false⟩ := by
        simp [mainModel, mountStep, hq, hd, hcond]
      rw [hres] at hfail
      simp at hfail

theorem claim9_witness :
    (pyReadlines
        ((mainModel argsEx .mounted envMkdirFail (some contentEx)).file.getD [])).all
      (fun l => !(isTracked argsEx l)) = true := by
  have h := claim9_compensation_unconditional argsEx envMkdirFail contentEx
    (by decide) (by decide) (by decide) (Or.inl (by decide))
  rw [List.all_eq_true]
  intro l hl
  simpa using h l hl

end MountMod
